import Mathlib

/-!
Verification development for the invest-manager repository.

Go strings are modelled as `List Char` (one entry per text unit); Go float64
money/yield values are modelled as `ℚ`, which preserves the arithmetic
structure of the source computations (sums, products, sign tests).
Each definition is a direct shallow embedding of the correspondingly named
Go function.
-/

namespace InvestManager

/-- A Go string, modelled as a list of characters. -/
abbrev Str := List Char

/-- Whitespace test matching the characters trimmed by Go `strings.TrimSpace`
for the ASCII range used in this code base. -/
def isSpaceChar (c : Char) : Bool :=
  c = ' ' || c = '\t' || c = '\n' || c = '\r' || c = '\x0b' || c = '\x0c'

/-- Go `strings.TrimSpace`: drop whitespace from both ends. -/
def trimChars (s : Str) : Str :=
  ((s.dropWhile isSpaceChar).reverse.dropWhile isSpaceChar).reverse

/-- Go `strings.Contains`: does `s` contain `pat` as a contiguous substring? -/
def containsSub (pat : Str) : Str → Bool
  | [] => pat.isEmpty
  | c :: rest => pat.isPrefixOf (c :: rest) || containsSub pat rest

/-- Go `strings.Index`: position of the first occurrence of `pat` in `s`. -/
def goIndexOf (pat : Str) : Str → Option Nat
  | [] => if pat.isEmpty then some 0 else none
  | c :: rest =>
    if pat.isPrefixOf (c :: rest) then some 0
    else (goIndexOf pat rest).map (· + 1)

/-- The text after the first occurrence of `pat` in `s`; this is element 1 of
Go `strings.SplitN(s, pat, 2)` when `s` contains `pat`. -/
def afterFirst (pat s : Str) : Str :=
  match goIndexOf pat s with
  | some i => s.drop (i + pat.length)
  | none => s

/-- Fuel-driven worker for Go `strings.Split`. The fuel argument makes the
recursion structural; callers pass `s.length`, which is always sufficient for
a non-empty separator because each step consumes at least one character. -/
def goSplitF (sep : Str) : Nat → Str → List Str
  | _, [] => [[]]
  | 0, s => [s]
  | fuel + 1, c :: rest =>
    if sep.isPrefixOf (c :: rest) && !sep.isEmpty then
      [] :: goSplitF sep fuel ((c :: rest).drop sep.length)
    else
      match goSplitF sep fuel rest with
      | [] => [[c]]
      | seg :: more => (c :: seg) :: more

/-- Go `strings.Split(s, sep)` for a non-empty separator: the segments of `s`
around each leftmost non-overlapping occurrence of `sep`. -/
def goSplit (sep s : Str) : List Str :=
  goSplitF sep s.length s

/-- Part of the line before the first occurrence of character `c`
(element 0 of Go `strings.SplitN(s, c, 2)`). -/
def takeBeforeFirstChar (c : Char) (s : Str) : Str :=
  s.takeWhile (· ≠ c)

/-- Part of the line after the first occurrence of character `c`
(element 1 of Go `strings.SplitN(s, c, 2)` when present). -/
def afterFirstChar (c : Char) (s : Str) : Str :=
  (s.dropWhile (· ≠ c)).drop 1

/-- Section markers and fixed sentences used by `parseAnalysisResponse`. -/
def markerEN : Str := "RECOMMENDATIONS:".toList

/-- Russian-language recommendations marker accepted by the parser. -/
def markerRU : Str := "РЕКОМЕНДАЦИИ:".toList

/-- Opportunities section marker. -/
def oppMarker : Str := "OPPORTUNITIES:".toList

/-- Summary line marker. -/
def sumMarker : Str := "SUMMARY:".toList

/-- Explanation line marker used in the opportunities section. -/
def expMarker : Str := "Explanation:".toList

/-- Newline separator used to split section bodies into lines. -/
def nl : Str := ['\n']

/-- Structure `invest.Position`: one portfolio holding (client.go / unnamed part_001). -/
structure Position where
  FIGI : Str
  Ticker : Str
  Name : Str
  InstrumentType : Str
  Quantity : ℚ
  AveragePrice : ℚ
  CurrentPrice : ℚ
  ExpectedYield : ℚ
  Currency : Str
deriving DecidableEq, Repr

/-- Structure `invest.Portfolio`: positions plus aggregate totals. -/
structure Portfolio where
  Positions : List Position
  TotalAmount : ℚ
  ExpectedYield : ℚ
  Currency : Str
deriving DecidableEq, Repr

/-- Structure `analysis.Recommendation`: one advisory line item. -/
structure Recommendation where
  Ticker : Str
  Name : Str
  Action : Str
  Reason : Str
deriving DecidableEq, Repr

/-- Structure `analysis.PortfolioAnalysis`: the parse result. -/
structure PortfolioAnalysis where
  Recommendations : List Recommendation
  Opportunities : List Recommendation
  Summary : Str
  IsMonthlyReminder : Bool
  RawText : Str
deriving DecidableEq, Repr

/-- The emphasis-stripping step of `parseAnalysisResponse`:
`strings.ReplaceAll(text, "*", "")` followed by `strings.ReplaceAll(_, "_", "")`. -/
def cleanText (s : Str) : Str :=
  (s.filter (· ≠ '*')).filter (· ≠ '_')

/-- The first portfolio position whose ticker is a prefix of the line —
the inner `for _, pos := range portfolio.Positions` loop with its
`strings.HasPrefix(line, pos.Ticker)` test and `break`. -/
def findPos (ps : List Position) (line : Str) : Option Position :=
  ps.find? (fun pos => pos.Ticker.isPrefixOf line)

/-- Action extraction on a recommendation line: split at the first hyphen,
upper-case the right part, and test substring containment of BUY, then SELL,
then HOLD (lines 221-232 of the parser). -/
def extractAction (line : Str) : Str :=
  if line.contains '-' then
    let p := (afterFirstChar '-' line).map Char.toUpper
    if containsSub "BUY".toList p then "BUY".toList
    else if containsSub "SELL".toList p then "SELL".toList
    else if containsSub "HOLD".toList p then "HOLD".toList
    else []
  else []

/-- The recommendations-block scanning loop of `parseAnalysisResponse`
(lines 207-254): tracks the in-progress recommendation, opens a new one on a
line whose trimmed form starts with a known ticker, and may consume the next
line as the rationale when it is non-blank and does not start with the same
ticker. -/
def parseRecLoop (ps : List Position) : List Str → Option Recommendation → List Recommendation
  | [], cur => cur.toList
  | [l], cur =>
    let line := trimChars l
    if line = [] then cur.toList
    else
      match findPos ps line with
      | none => cur.toList
      | some pos =>
        cur.toList ++ [⟨pos.Ticker, pos.Name, extractAction line, []⟩]
  | l :: next0 :: rest, cur =>
    let line := trimChars l
    if line = [] then parseRecLoop ps (next0 :: rest) cur
    else
      match findPos ps line with
      | none => parseRecLoop ps (next0 :: rest) cur
      | some pos =>
        let next := trimChars next0
        if next ≠ [] ∧ pos.Ticker.isPrefixOf next = false then
          cur.toList ++ parseRecLoop ps rest (some ⟨pos.Ticker, pos.Name, extractAction line, next⟩)
        else
          cur.toList ++ parseRecLoop ps (next0 :: rest) (some ⟨pos.Ticker, pos.Name, extractAction line, []⟩)

/-- The opportunities-block scanning loop of `parseAnalysisResponse`
(lines 286-315): each non-blank line containing a hyphen yields an
opportunity whose action is the trimmed right part taken verbatim; a
following trimmed line with an `Explanation:` marker supplies the reason. -/
def parseOppLoop : List Str → List Recommendation
  | [] => []
  | [l] =>
    let line := trimChars l
    if line ≠ [] ∧ line.contains '-' = true then
      let left := trimChars (takeBeforeFirstChar '-' line)
      let action := trimChars (afterFirstChar '-' line)
      let ticker := trimChars (takeBeforeFirstChar ':' left)
      let name := if left.contains ':' then trimChars (afterFirstChar ':' left) else []
      [⟨ticker, name, action, []⟩]
    else []
  | l :: next0 :: rest =>
    let line := trimChars l
    if line ≠ [] ∧ line.contains '-' = true then
      let left := trimChars (takeBeforeFirstChar '-' line)
      let action := trimChars (afterFirstChar '-' line)
      let ticker := trimChars (takeBeforeFirstChar ':' left)
      let name := if left.contains ':' then trimChars (afterFirstChar ':' left) else []
      let next := trimChars next0
      if expMarker.isPrefixOf next then
        ⟨ticker, name, action, trimChars (next.drop expMarker.length)⟩ :: parseOppLoop rest
      else
        ⟨ticker, name, action, []⟩ :: parseOppLoop (next0 :: rest)
    else parseOppLoop (next0 :: rest)

/-- The summary-extraction loop (lines 182-202): find the first line with a
`SUMMARY:` marker; the summary is the trimmed remainder of that line, or the
trimmed following line when that remainder is empty. -/
def extractSummary : List Str → Str
  | [] => []
  | line :: rest =>
    if sumMarker.isPrefixOf line then
      let s := trimChars (line.drop sumMarker.length)
      if s = [] then
        match rest with
        | [] => s
        | nxt :: _ => trimChars nxt
      else s
    else extractSummary rest

/-- Fixed diagnostic summary installed by the fallback path. -/
def fallbackSummary : Str :=
  "Analysis completed, but could not parse specific recommendations.".toList

/-- Fixed generic rationale of a fallback recommendation. -/
def fallbackReason : Str := "Based on current position yield.".toList

/-- One fallback recommendation: action from the sign of the expected yield
(lines 262-278). -/
def fallbackRec (pos : Position) : Recommendation :=
  ⟨pos.Ticker, pos.Name,
    if 0 < pos.ExpectedYield then "BUY".toList
    else if pos.ExpectedYield < 0 then "SELL".toList
    else "HOLD".toList,
    fallbackReason⟩

/-- Function `parseAnalysisResponse` (unnamed part_003, lines 163-319): strips emphasis
markers, splits at the recommendations marker (English, then Russian), extracts
the summary, scans the recommendations block, applies the fallback policy when
no recommendation was found on non-blank input, and scans an optional
opportunities block. The Go function also returns a never-firing error value;
the embedding returns the analysis directly. `RawText` and `IsMonthlyReminder`
are assigned by the caller in the source, so the parse result leaves them
empty and false. -/
def parseAnalysisResponse (analysisText : Str) (portfolio : Portfolio) : PortfolioAnalysis :=
  let cleanedText := cleanText analysisText
  let sp0 := goSplit markerEN cleanedText
  let summaryParts := if sp0.length < 2 then goSplit markerRU cleanedText else sp0
  let summary0 :=
    if summaryParts.length < 2 then extractSummary (goSplit nl cleanedText)
    else extractSummary (goSplit nl (summaryParts.headD []))
  let recs0 :=
    if summaryParts.length < 2 then []
    else parseRecLoop portfolio.Positions (goSplit nl ((summaryParts.drop 1).headD [])) none
  let useFallback := recs0.isEmpty && !(trimChars cleanedText).isEmpty
  let summary := if useFallback then fallbackSummary else summary0
  let recs := if useFallback then portfolio.Positions.map fallbackRec else recs0
  let opps :=
    if containsSub oppMarker cleanedText then
      parseOppLoop (goSplit nl (afterFirst oppMarker cleanedText))
    else []
  ⟨recs, opps, summary, false, []⟩

/-- Telegram's maximum single-payload length (`maxMessageLength` in
`sendMessage`, bot.go line 192). -/
def maxMessageLength : Nat := 4096

/-- Index of the last `\n` in `s`, or `none`: Go
`strings.LastIndex(s, "\n")` with `-1` mapped to `none`. -/
def lastNewlineIdx : Str → Option Nat
  | [] => none
  | x :: rest =>
    match lastNewlineIdx rest with
    | some i => some (i + 1)
    | none => if x = '\n' then some 0 else none

/-- The cut index chosen by one iteration of the `splitMessage` loop
(bot.go lines 296-300): the last newline within the window, unless there is
none or it falls below half the window, in which case the hard limit. -/
def cutAt (maxLength : Nat) (s : Str) : Nat :=
  match lastNewlineIdx (s.take maxLength) with
  | none => maxLength
  | some k => if k < maxLength / 2 then maxLength else k

/-- Fuel-driven embedding of the `splitMessage` loop (bot.go lines 283-307).
The fuel makes the recursion structural; `splitMessage` passes `s.length`,
which suffices whenever `maxLength ≥ 2` because each iteration removes at
least one character. (For `maxLength ≤ 1` the Go loop can fail to make
progress and diverge; the fuel then runs out instead.) -/
def splitLoopF (maxLength : Nat) : Nat → Str → List Str
  | 0, s => [s]
  | fuel + 1, s =>
    if s.length ≤ maxLength then [s]
    else s.take (cutAt maxLength s) :: splitLoopF maxLength fuel (s.drop (cutAt maxLength s))

/-- Function `splitMessage(message, maxLength)`: chunks a message, preferring newline
cut points past the halfway mark of the window. -/
def splitMessage (message : Str) (maxLength : Nat) : List Str :=
  splitLoopF maxLength message.length message

/-- Structure `news.Article`: a news item. The publish timestamp is abstracted to a
number. -/
structure Article where
  Title : Str
  Description : Str
  URL : Str
  PublishedAt : Nat
  SourceName : Str
deriving DecidableEq, Repr

/-- The external collaborators used by `scheduler.runPortfolioAnalysis`:
portfolio source, news source, advisory generator, delivery channel. Each is
a function that either succeeds or returns an error message, mirroring the Go
`(T, error)` returns. -/
structure Collaborators where
  getPortfolio : Except Str Portfolio
  fetchNews : Str → Nat → Except Str (List Article)
  analyzePortfolio : Portfolio → List Article → Bool → Except Str PortfolioAnalysis
  sendPortfolioAnalysis : Portfolio → PortfolioAnalysis → List Article → Except Str Unit

/-- Function `scheduler.runPortfolioAnalysis` (scheduler.go lines 105-140): fetch
portfolio (fatal on failure), fetch news (non-fatal: an error is replaced by
an empty article list), generate the analysis (fatal), deliver (fatal). -/
def runPortfolioAnalysis (c : Collaborators) (isMonthlyReminder : Bool) : Except Str Unit :=
  match c.getPortfolio with
  | .error e => .error ("failed to get portfolio: ".toList ++ e)
  | .ok portfolio =>
    let articles :=
      match c.fetchNews "Russia".toList 5 with
      | .error _ => ([] : List Article)
      | .ok a => a
    match c.analyzePortfolio portfolio articles isMonthlyReminder with
    | .error e => .error ("failed to analyze portfolio: ".toList ++ e)
    | .ok analysis =>
      match c.sendPortfolioAnalysis portfolio analysis articles with
      | .error e => .error ("failed to send analysis to Telegram: ".toList ++ e)
      | .ok _ => .ok ()

/-- Function `scheduler.RunNow` (scheduler.go lines 99-102): direct invocation of the
same pipeline. -/
def RunNow (c : Collaborators) (isMonthlyReminder : Bool) : Except Str Unit :=
  runPortfolioAnalysis c isMonthlyReminder

/-- The aggregation loop of `invest.GetPortfolio` (unnamed part_001,
lines 112-124): totals are folded over the positions exactly as in the
source, and the positions list is stored unchanged. -/
def buildPortfolio (positions : List Position) : Portfolio :=
  ⟨positions,
    positions.foldl (fun acc pos => acc + pos.Quantity * pos.CurrentPrice) 0,
    positions.foldl (fun acc pos => acc + pos.ExpectedYield) 0,
    "RUB".toList⟩

/-- The fixed demo positions returned by `invest.GetPortfolio`
(unnamed part_001, lines 76-110). -/
def dummyPositions : List Position :=
  [⟨"BBG004730N88".toList, "SBER".toList, "Сбербанк".toList, "Акция".toList,
      10, 541/2, 2853/10, 148, "RUB".toList⟩,
   ⟨"BBG004S68CP5".toList, "LKOH".toList, "Лукойл".toList, "Акция".toList,
      5, 6500, 6700, 1000, "RUB".toList⟩,
   ⟨"BBG004S68879".toList, "GAZP".toList, "Газпром".toList, "Акция".toList,
      20, 165, 160, -100, "RUB".toList⟩]

/-- Function `invest.GetPortfolio` (unnamed part_001, lines 74-125): builds the demo
portfolio snapshot with aggregates computed from the positions. -/
def GetPortfolio : Except Str Portfolio :=
  .ok (buildPortfolio dummyPositions)

/-- One well-formed entry of a recommendations block: a known position, an
action token, and a rationale line. Used to quantify over well-formed blocks. -/
structure RecEntry where
  pos : Position
  action : Str
  expl : Str
deriving DecidableEq, Repr

/-- The ticker line of a well-formed entry, in the layout the advisory prompt
requests: `ticker: NAME - ACTION`. -/
def tickerLine (e : RecEntry) : Str :=
  e.pos.Ticker ++ ": ".toList ++ e.pos.Name ++ " - ".toList ++ e.action

/-- The two block lines contributed by one entry. -/
def entryLines (e : RecEntry) : List Str :=
  [tickerLine e, e.expl]

/-- The recommendation an entry should parse to. -/
def toRec (e : RecEntry) : Recommendation :=
  ⟨e.pos.Ticker, e.pos.Name, e.action, trimChars e.expl⟩

/-- Well-formedness of one entry with respect to the known positions: the
ticker line is already trimmed and resolves to the entry's own position, the
action is one of the three tokens, ticker and name are hyphen-free so the
action token sits after the first hyphen, and the rationale line is non-blank
and does not start with the entry's ticker. -/
def entryOK (ps : List Position) (e : RecEntry) : Prop :=
  trimChars (tickerLine e) = tickerLine e ∧
  findPos ps (tickerLine e) = some e.pos ∧
  (e.action = "BUY".toList ∨ e.action = "SELL".toList ∨ e.action = "HOLD".toList) ∧
  '-' ∉ e.pos.Ticker ∧
  '-' ∉ e.pos.Name ∧
  trimChars e.expl ≠ [] ∧
  e.pos.Ticker.isPrefixOf (trimChars e.expl) = false

instance entryOKDecidable (ps : List Position) (e : RecEntry) : Decidable (entryOK ps e) := by
  unfold entryOK
  infer_instance

/-- Sample position used by witnesses and counterexamples. -/
def sberP : Position :=
  ⟨"BBG1".toList, "SBER".toList, "Sberbank".toList, "Stock".toList,
    10, 270, 285, 148, "RUB".toList⟩

/-- Second sample position used by witnesses and counterexamples. -/
def gazpP : Position :=
  ⟨"BBG2".toList, "GAZP".toList, "Gazprom".toList, "Stock".toList,
    20, 165, 160, -100, "RUB".toList⟩

/-- Sample two-position portfolio. -/
def pfSG : Portfolio := ⟨[sberP, gazpP], 0, 0, "RUB".toList⟩

/-- Sample one-position portfolio. -/
def pfS : Portfolio := ⟨[sberP], 0, 0, "RUB".toList⟩

/-- Sample empty portfolio and analysis used by pipeline witnesses. -/
def pfW : Portfolio := ⟨[], 0, 0, "RUB".toList⟩

/-- Sample analysis result used by pipeline witnesses. -/
def anaW : PortfolioAnalysis := ⟨[], [], [], false, []⟩

/-- Sample collaborators whose news source fails while the other three
steps succeed. -/
def collabW : Collaborators :=
  ⟨.ok pfW, fun _ _ => .error "news down".toList, fun _ _ _ => .ok anaW,
    fun _ _ _ => .ok ()⟩

/-- Concrete advisory text with a well-formed recommendations block, used by
the C1 witness. -/
def c1Text : Str :=
  ("SUMMARY: ok\nRECOMMENDATIONS:SBER: Sberbank - BUY\nSolid balance sheet.\n"
    ++ "GAZP: Gazprom - SELL\nPressure on exports.").toList

/-- Part of `c1Text` before the recommendations marker. -/
def c1Pre : Str := "SUMMARY: ok\n".toList

/-- Part of `c1Text` after the recommendations marker. -/
def c1Recs : Str :=
  "SBER: Sberbank - BUY\nSolid balance sheet.\nGAZP: Gazprom - SELL\nPressure on exports.".toList

/-- The two well-formed entries rendered in `c1Text`. -/
def c1Entries : List RecEntry :=
  [⟨sberP, "BUY".toList, "Solid balance sheet.".toList⟩,
   ⟨gazpP, "SELL".toList, "Pressure on exports.".toList⟩]

/-- Folding `acc + f x` over a list starting from `a` yields `a` plus the sum
of the mapped list. -/
theorem foldl_add_eq_sum {α : Type} (f : α → ℚ) (l : List α) (a : ℚ) :
    l.foldl (fun acc x => acc + f x) a = a + (l.map f).sum := by
  induction l generalizing a with
  | nil => simp
  | cons x t ih => simp [ih, add_assoc]

/-- C9: for every portfolio built by the `GetPortfolio` aggregation loop, the
total amount is the sum of quantity times current price over all positions,
the expected yield is the sum of the per-position expected yields, and the
stored positions are exactly the input snapshot, unchanged. -/
theorem C9_portfolio_aggregates (ps : List Position) :
    (buildPortfolio ps).TotalAmount = (ps.map (fun p => p.Quantity * p.CurrentPrice)).sum ∧
    (buildPortfolio ps).ExpectedYield = (ps.map (fun p => p.ExpectedYield)).sum ∧
    (buildPortfolio ps).Positions = ps := by
  refine ⟨?_, ?_, rfl⟩ <;> simp [buildPortfolio, foldl_add_eq_sum]

/-- C3: when the portfolio fetch succeeds, the news fetch fails, and the
advisory generation and the delivery succeed on the empty article list, the
pipeline run completes without error — the news failure is replaced by an
empty article set and never propagated. -/
theorem C3_news_error_nonfatal (c : Collaborators) (flag : Bool) (pf : Portfolio)
    (e : Str) (a : PortfolioAnalysis)
    (hpf : c.getPortfolio = .ok pf)
    (hnews : c.fetchNews "Russia".toList 5 = .error e)
    (hana : c.analyzePortfolio pf [] flag = .ok a)
    (hsend : c.sendPortfolioAnalysis pf a [] = .ok ()) :
    runPortfolioAnalysis c flag = .ok () := by
  unfold runPortfolioAnalysis
  rw [hpf, hnews]
  simp only [hana, hsend]

/-- Witness for C3 at concrete collaborators with a failing news source. -/
theorem C3_witness : runPortfolioAnalysis collabW false = .ok () :=
  C3_news_error_nonfatal collabW false pfW "news down".toList anaW rfl rfl rfl rfl

/-- The last-newline index, when defined, lies inside the list. -/
theorem lastNewlineIdx_lt (s : Str) (k : Nat) (h : lastNewlineIdx s = some k) :
    k < s.length := by
  induction s generalizing k with
  | nil => simp [lastNewlineIdx] at h
  | cons x rest ih =>
    simp only [lastNewlineIdx] at h
    cases hr : lastNewlineIdx rest with
    | some i =>
      rw [hr] at h
      cases h
      have := ih i hr
      simp only [List.length_cons]
      omega
    | none =>
      rw [hr] at h
      by_cases hx : x = '\n' <;> simp [hx] at h <;> simp [← h]

/-- The cut index never exceeds the window size. -/
theorem cutAt_le (maxLength : Nat) (s : Str) : cutAt maxLength s ≤ maxLength := by
  cases hk : lastNewlineIdx (s.take maxLength) with
  | none => simp [cutAt, hk]
  | some k =>
    have hlt := lastNewlineIdx_lt _ _ hk
    have htl : (s.take maxLength).length ≤ maxLength := by
      rw [List.length_take]
      exact min_le_left _ _
    simp only [cutAt, hk]
    split <;> omega

/-- With a window of at least two, the cut index is positive. -/
theorem cutAt_pos (maxLength : Nat) (s : Str) (h : 2 ≤ maxLength) :
    1 ≤ cutAt maxLength s := by
  cases hk : lastNewlineIdx (s.take maxLength) with
  | none => simp only [cutAt, hk]; omega
  | some k =>
    simp only [cutAt, hk]
    split <;> omega

/-- The cut index is at least half the window. -/
theorem cutAt_ge_half (maxLength : Nat) (s : Str) :
    maxLength / 2 ≤ cutAt maxLength s := by
  cases hk : lastNewlineIdx (s.take maxLength) with
  | none =>
    simp only [cutAt, hk]
    omega
  | some k =>
    simp only [cutAt, hk]
    split <;> omega

/-- The chunking loop never returns an empty chunk list. -/
theorem splitLoopF_ne_nil (maxLength fuel : Nat) (s : Str) :
    splitLoopF maxLength fuel s ≠ [] := by
  cases fuel with
  | zero => simp [splitLoopF]
  | succ n =>
    unfold splitLoopF
    split <;> simp

/-- Concatenating the chunks of the loop recovers the input, for any fuel. -/
theorem splitLoopF_join (maxLength fuel : Nat) (s : Str) :
    (splitLoopF maxLength fuel s).join = s := by
  induction fuel generalizing s with
  | zero => simp [splitLoopF]
  | succ n ih =>
    unfold splitLoopF
    split
    · simp
    · simp [ih]

/-- A message already within the limit is returned as a single chunk. -/
theorem splitLoopF_short (maxLength fuel : Nat) (s : Str)
    (h : s.length ≤ maxLength) : splitLoopF maxLength fuel s = [s] := by
  cases fuel with
  | zero => simp [splitLoopF]
  | succ n => simp [splitLoopF, h]

/-- With window at least two and sufficient fuel, every chunk respects the
window size. -/
theorem splitLoopF_chunk_le (maxLength : Nat) (h2 : 2 ≤ maxLength) (fuel : Nat) :
    ∀ s : Str, s.length ≤ fuel →
      ∀ ch ∈ splitLoopF maxLength fuel s, ch.length ≤ maxLength := by
  induction fuel with
  | zero =>
    intro s hs ch hch
    simp only [splitLoopF] at hch
    simp only [List.mem_singleton] at hch
    subst hch
    omega
  | succ n ih =>
    intro s hs ch hch
    unfold splitLoopF at hch
    split at hch
    · simp only [List.mem_singleton] at hch
      subst hch
      omega
    · rename_i hlong
      push_neg at hlong
      simp only [List.mem_cons] at hch
      rcases hch with hch | hch
      · subst hch
        have h1 := cutAt_le maxLength s
        simp only [List.length_take]
        omega
      · have h1 := cutAt_pos maxLength s h2
        have h3 := cutAt_le maxLength s
        refine ih (s.drop (cutAt maxLength s)) ?_ ch hch
        simp only [List.length_drop]
        omega

/-- With window at least two, sufficient fuel and non-empty input, every
chunk is non-empty. -/
theorem splitLoopF_chunk_ne_nil (maxLength : Nat) (h2 : 2 ≤ maxLength) (fuel : Nat) :
    ∀ s : Str, s.length ≤ fuel → s ≠ [] →
      ∀ ch ∈ splitLoopF maxLength fuel s, ch ≠ [] := by
  induction fuel with
  | zero =>
    intro s hs hne ch hch
    have : s.length = 0 := by omega
    exact absurd (List.length_eq_zero.mp this) hne
  | succ n ih =>
    intro s hs hne ch hch
    unfold splitLoopF at hch
    split at hch
    · simp only [List.mem_singleton] at hch
      subst hch
      exact hne
    · rename_i hlong
      push_neg at hlong
      simp only [List.mem_cons] at hch
      have h1 := cutAt_pos maxLength s h2
      have h3 := cutAt_le maxLength s
      rcases hch with hch | hch
      · subst hch
        have : (s.take (cutAt maxLength s)).length = cutAt maxLength s := by
          simp only [List.length_take]
          omega
        intro hnil
        rw [hnil] at this
        simp at this
        omega
      · refine ih (s.drop (cutAt maxLength s)) ?_ ?_ ch hch
        · simp only [List.length_drop]
          omega
        · intro hnil
          have := congrArg List.length hnil
          simp only [List.length_drop, List.length_nil] at this
          omega

/-- Every chunk except the last has length at least half the window: each
loop iteration removes at least half the window from the remaining text. -/
theorem splitLoopF_dropLast_ge_half (maxLength : Nat) (fuel : Nat) :
    ∀ s : Str, ∀ ch ∈ (splitLoopF maxLength fuel s).dropLast,
      maxLength / 2 ≤ ch.length := by
  induction fuel with
  | zero =>
    intro s ch hch
    simp [splitLoopF] at hch
  | succ n ih =>
    intro s ch hch
    unfold splitLoopF at hch
    split at hch
    · simp at hch
    · rename_i hlong
      push_neg at hlong
      obtain ⟨y, t, hyt⟩ :=
        List.exists_cons_of_ne_nil (splitLoopF_ne_nil maxLength n (s.drop (cutAt maxLength s)))
      rw [hyt] at hch
      simp only [List.dropLast_cons₂, List.mem_cons] at hch
      rcases hch with hch | hch
      · subst hch
        have h1 := cutAt_ge_half maxLength s
        have h3 := cutAt_le maxLength s
        simp only [List.length_take]
        omega
      · have := ih (s.drop (cutAt maxLength s))
        rw [hyt] at this
        exact this ch hch

/-- C4: chunks produced for the fixed Telegram limit never exceed that limit,
their concatenation reconstructs the original text exactly, and a text
already within the limit is returned unchanged as a single chunk, so
re-chunking is idempotent in that case. -/
theorem C4_chunk_invariants (text : Str) :
    (∀ ch ∈ splitMessage text maxMessageLength, ch.length ≤ maxMessageLength) ∧
    (splitMessage text maxMessageLength).join = text ∧
    (text.length ≤ maxMessageLength → splitMessage text maxMessageLength = [text]) := by
  refine ⟨?_, splitLoopF_join _ _ _, fun h => splitLoopF_short _ _ _ h⟩
  exact splitLoopF_chunk_le maxMessageLength (by norm_num [maxMessageLength]) _ text le_rfl

/-- Witness for C4 at a concrete short text. -/
theorem C4_witness : splitMessage "hi".toList maxMessageLength = ["hi".toList] :=
  (C4_chunk_invariants "hi".toList).2.2 (by decide)

/-- Counterexample for C10 as stated: the empty input is a string, the limit
4096 is at least 2, yet the returned chunk list contains an empty chunk. -/
theorem C10_counterexample :
    splitMessage [] maxMessageLength = [[]] ∧
    ([] : Str) ∈ splitMessage [] maxMessageLength := by
  constructor <;> decide

/-- C10 (amended to non-empty input): the fuel-indexed loop is total, and for
every non-empty text and limit of at least 2, every returned chunk is
non-empty; moreover every chunk except the last has length at least half the
window, because a newline cut below half the window (or no newline) is
replaced by the hard limit. -/
theorem C10_chunks_nonempty_and_progress (text : Str) (maxLength : Nat)
    (h2 : 2 ≤ maxLength) (hne : text ≠ []) :
    (∀ ch ∈ splitMessage text maxLength, ch ≠ []) ∧
    (∀ ch ∈ (splitMessage text maxLength).dropLast, maxLength / 2 ≤ ch.length) := by
  exact ⟨splitLoopF_chunk_ne_nil maxLength h2 _ text le_rfl hne,
    splitLoopF_dropLast_ge_half maxLength _ text⟩

/-- Witness for C10 at a concrete text that splits into three chunks. -/
theorem C10_witness :
    (∀ ch ∈ splitMessage "ab\ncdefg".toList 4, ch ≠ []) ∧
    (∀ ch ∈ (splitMessage "ab\ncdefg".toList 4).dropLast, 4 / 2 ≤ ch.length) :=
  C10_chunks_nonempty_and_progress "ab\ncdefg".toList 4 (by decide) (by decide)

/-- Splitting at a separator that does not occur leaves the text whole. -/
theorem goSplitF_of_not_contains (pat : Str) (fuel : Nat) (s : Str)
    (h : containsSub pat s = false) : goSplitF pat fuel s = [s] := by
  induction fuel generalizing s with
  | zero => cases s <;> simp_all [goSplitF, containsSub]
  | succ n ih =>
    cases s with
    | nil => simp [goSplitF]
    | cons c rest =>
      simp only [containsSub, Bool.or_eq_false_iff] at h
      simp only [goSplitF, h.1, Bool.false_and, if_neg, Bool.false_eq_true,
        not_false_iff]
      rw [ih rest h.2]

/-- Same statement for the wrapper. -/
theorem goSplit_of_not_contains (pat s : Str) (h : containsSub pat s = false) :
    goSplit pat s = [s] :=
  goSplitF_of_not_contains pat s.length s h

/-- Counterexample for C2 as stated: the input `" "` is a non-empty advisory
text with no section markers and the portfolio has one position, yet the
parser produces no recommendation at all — the fallback requires the text to
be non-blank, not merely non-empty. -/
theorem C2_counterexample :
    (parseAnalysisResponse " ".toList pfS).Recommendations = [] ∧
    " ".toList ≠ ([] : Str) ∧ pfS.Positions ≠ [] := by
  refine ⟨by decide, by decide, by decide⟩

/-- C2 (amended: non-blank instead of non-empty input): for every advisory
text with no recommendations-section marker in either language whose
emphasis-stripped form is non-blank, the parser returns exactly one fallback
recommendation per known position, in portfolio order, with the action
determined solely by the sign of the position's expected yield, a fixed
generic rationale, and the fixed diagnostic summary. -/
theorem C2_fallback_per_position (text : Str) (pf : Portfolio)
    (hEN : containsSub markerEN (cleanText text) = false)
    (hRU : containsSub markerRU (cleanText text) = false)
    (hnb : trimChars (cleanText text) ≠ []) :
    (parseAnalysisResponse text pf).Recommendations =
      pf.Positions.map (fun pos =>
        ⟨pos.Ticker, pos.Name,
          if 0 < pos.ExpectedYield then "BUY".toList
          else if pos.ExpectedYield < 0 then "SELL".toList
          else "HOLD".toList,
          "Based on current position yield.".toList⟩) ∧
    (parseAnalysisResponse text pf).Summary = fallbackSummary := by
  have hisEmpty : (trimChars (cleanText text)).isEmpty = false := by
    cases htc : trimChars (cleanText text) with
    | nil => exact absurd htc hnb
    | cons a t => simp
  simp only [parseAnalysisResponse]
  rw [goSplit_of_not_contains _ _ hEN, goSplit_of_not_contains _ _ hRU]
  simp [hisEmpty, fallbackRec, fallbackReason]

/-- Witness for C2 at a concrete unstructured text and a two-position
portfolio with one positive-yield and one negative-yield position. -/
theorem C2_witness :
    (parseAnalysisResponse "nothing structured here".toList pfSG).Recommendations =
      [⟨"SBER".toList, "Sberbank".toList, "BUY".toList, "Based on current position yield.".toList⟩,
       ⟨"GAZP".toList, "Gazprom".toList, "SELL".toList, "Based on current position yield.".toList⟩] ∧
    (parseAnalysisResponse "nothing structured here".toList pfSG).Summary = fallbackSummary := by
  have h := C2_fallback_per_position "nothing structured here".toList pfSG
    (by decide) (by decide) (by decide)
  rw [h.1, h.2]
  refine ⟨by decide, rfl⟩

/-- The in-progress recommendation handed to the scanning loop is always the
first one flushed to the output. -/
theorem parseRecLoop_some (ps : List Position) (ls : List Str) (r : Recommendation) :
    parseRecLoop ps ls (some r) = r :: parseRecLoop ps ls none := by
  induction ls with
  | nil => simp [parseRecLoop]
  | cons l rest ih =>
    cases rest with
    | nil =>
      simp only [parseRecLoop]
      split
      · simp
      · cases findPos ps (trimChars l) <;> simp
    | cons n rest2 =>
      by_cases hbl : trimChars l = []
      · simp only [parseRecLoop, if_pos hbl]
        exact ih
      · cases hfp : findPos ps (trimChars l) with
        | none =>
          simp only [parseRecLoop, if_neg hbl, hfp]
          exact ih
        | some pos =>
          simp only [parseRecLoop, if_neg hbl, hfp]
          split <;> simp

/-- A rendered ticker line is never empty: it contains the colon-space
separator between ticker and name. -/
theorem tickerLine_ne_nil (e : RecEntry) : tickerLine e ≠ [] := by
  simp [tickerLine]

/-- Dropping while a predicate holds skips a block on which it holds
everywhere. -/
theorem dropWhile_append_of_all {p : Char → Bool} (l0 r : Str)
    (h : ∀ c ∈ l0, p c = true) :
    (l0 ++ r).dropWhile p = r.dropWhile p := by
  induction l0 with
  | nil => rfl
  | cons c t ih =>
    simp only [List.cons_append, List.dropWhile_cons, h c (List.mem_cons_self c t),
      if_true]
    exact ih (fun d hd => h d (List.mem_cons_of_mem c hd))

/-- Action extraction on a rendered ticker line returns exactly the rendered
action token, provided ticker and name are hyphen-free and the action is one
of the three recognized tokens. -/
theorem extractAction_tickerLine (tk nm act : Str)
    (htk : '-' ∉ tk) (hnm : '-' ∉ nm)
    (ha : act = "BUY".toList ∨ act = "SELL".toList ∨ act = "HOLD".toList) :
    extractAction (tk ++ ": ".toList ++ nm ++ " - ".toList ++ act) = act := by
  have hline : tk ++ ": ".toList ++ nm ++ " - ".toList ++ act =
      (tk ++ [':', ' '] ++ nm ++ [' ']) ++ '-' :: ' ' :: act := by
    simp [List.append_assoc]
  have hall : ∀ c ∈ tk ++ [':', ' '] ++ nm ++ [' '], (decide (c ≠ '-')) = true := by
    intro c hc
    simp only [decide_eq_true_eq]
    rintro rfl
    rcases List.mem_append.mp hc with h | h
    · rcases List.mem_append.mp h with h2 | h2
      · rcases List.mem_append.mp h2 with h3 | h3
        · exact htk h3
        · exact absurd h3 (by decide)
      · exact hnm h2
    · exact absurd h (by decide)
  have hmem : '-' ∈ tk ++ ": ".toList ++ nm ++ " - ".toList ++ act := by
    rw [hline]
    exact List.mem_append_right _ (List.mem_cons_self _ _)
  have hcont : (tk ++ ": ".toList ++ nm ++ " - ".toList ++ act).contains '-' = true := by
    simpa using hmem
  have hafter : afterFirstChar '-' (tk ++ ": ".toList ++ nm ++ " - ".toList ++ act) =
      ' ' :: act := by
    rw [hline]
    unfold afterFirstChar
    rw [dropWhile_append_of_all _ _ hall]
    simp [List.dropWhile_cons]
  unfold extractAction
  rw [if_pos hcont, hafter]
  rcases ha with ha | ha | ha <;> subst ha <;> decide

/-- Counterexample for C6 as stated: the line `SBERBANK rally expected`
begins with the known ticker `SBER` but the next character is `B`, not a
colon or dash, yet the parser opens a recommendation for `SBER` on that
line (with an empty action, since the line has no hyphen). -/
theorem C6_counterexample :
    (parseAnalysisResponse "RECOMMENDATIONS:\nSBERBANK rally expected".toList
        pfS).Recommendations =
      [⟨"SBER".toList, "Sberbank".toList, [], []⟩] ∧
    ("SBERBANK rally expected".toList.take 5 = "SBERB".toList) := by
  exact ⟨by decide, by decide⟩

/-- C6 (amended): inside the recommendations block a line opens a new
recommendation exactly when its trimmed form begins with a known position
ticker — no separator after the ticker is required. A non-matching or blank
line is skipped without effect, and a matching line always contributes a
recommendation for the first matching position, with the action extracted
from the line. -/
theorem C6_line_start_behavior (ps : List Position) (l : Str) (rest : List Str)
    (cur : Option Recommendation) :
    ((trimChars l = [] ∨ findPos ps (trimChars l) = none) →
      parseRecLoop ps (l :: rest) cur = parseRecLoop ps rest cur) ∧
    (∀ pos, trimChars l ≠ [] → findPos ps (trimChars l) = some pos →
      ∃ reason t, parseRecLoop ps (l :: rest) cur =
        cur.toList ++ ⟨pos.Ticker, pos.Name, extractAction (trimChars l), reason⟩ :: t) := by
  constructor
  · intro h
    cases rest with
    | nil =>
      rcases h with h | h
      · simp [parseRecLoop, h]
      · simp only [parseRecLoop, h]
        split <;> rfl
    | cons n rest2 =>
      rcases h with h | h
      · simp [parseRecLoop, h]
      · simp only [parseRecLoop, h]
        split <;> rfl
  · intro pos hl hfp
    cases rest with
    | nil =>
      refine ⟨[], [], ?_⟩
      simp only [parseRecLoop, if_neg hl, hfp]
    | cons n rest2 =>
      by_cases hc : trimChars n ≠ [] ∧ pos.Ticker.isPrefixOf (trimChars n) = false
      · refine ⟨trimChars n, parseRecLoop ps rest2 none, ?_⟩
        simp only [parseRecLoop, if_neg hl, hfp]
        rw [if_pos hc, parseRecLoop_some]
      · refine ⟨[], parseRecLoop ps (n :: rest2) none, ?_⟩
        simp only [parseRecLoop, if_neg hl, hfp]
        rw [if_neg hc, parseRecLoop_some]

/-- Witness for C6 at a concrete separator-free line. -/
theorem C6_witness :
    ∃ reason t,
      parseRecLoop [sberP] ["SBERBANK up".toList] none =
        (none : Option Recommendation).toList ++
          ⟨sberP.Ticker, sberP.Name, extractAction (trimChars "SBERBANK up".toList), reason⟩ :: t :=
  (C6_line_start_behavior [sberP] "SBERBANK up".toList [] none).2 sberP
    (by decide) (by decide)

/-- Counterexample for C7 as stated: two adjacent ticker lines for different
known tickers; the second line is consumed as the first recommendation's
rationale and never opens its own recommendation, so only one recommendation
is returned. -/
theorem C7_counterexample :
    (parseAnalysisResponse
        "RECOMMENDATIONS:\nSBER: Sberbank - BUY\nGAZP: Gazprom - HOLD".toList
        pfSG).Recommendations =
      [⟨"SBER".toList, "Sberbank".toList, "BUY".toList,
        "GAZP: Gazprom - HOLD".toList⟩] := by
  decide

/-- C7 (amended): the rationale-adoption step refuses to consume a following
line only when that line starts with the current recommendation's own
ticker; any other non-blank following line — including one that starts a
different known ticker — is consumed verbatim as the rationale and is not
scanned again. -/
theorem C7_rationale_consumption (ps : List Position) (l n : Str) (rest : List Str)
    (cur : Option Recommendation) (pos : Position)
    (hl : trimChars l ≠ []) (hfp : findPos ps (trimChars l) = some pos) :
    (trimChars n ≠ [] → pos.Ticker.isPrefixOf (trimChars n) = false →
      parseRecLoop ps (l :: n :: rest) cur =
        cur.toList ++ parseRecLoop ps rest
          (some ⟨pos.Ticker, pos.Name, extractAction (trimChars l), trimChars n⟩)) ∧
    (pos.Ticker.isPrefixOf (trimChars n) = true →
      parseRecLoop ps (l :: n :: rest) cur =
        cur.toList ++ parseRecLoop ps (n :: rest)
          (some ⟨pos.Ticker, pos.Name, extractAction (trimChars l), []⟩)) := by
  constructor
  · intro hn hpre
    have hc : trimChars n ≠ [] ∧ pos.Ticker.isPrefixOf (trimChars n) = false := ⟨hn, hpre⟩
    simp only [parseRecLoop, if_neg hl, hfp]
    rw [if_pos hc]
  · intro hpre
    have hc : ¬(trimChars n ≠ [] ∧ pos.Ticker.isPrefixOf (trimChars n) = false) := by
      intro hcontra
      rw [hpre] at hcontra
      exact absurd hcontra.2 (by simp)
    simp only [parseRecLoop, if_neg hl, hfp]
    rw [if_neg hc]

/-- Witness for C7: a GAZP ticker line following a SBER ticker line is
consumed as the SBER rationale. -/
theorem C7_witness :
    parseRecLoop [sberP, gazpP]
        ["SBER: Sberbank - BUY".toList, "GAZP: Gazprom - HOLD".toList] none =
      (none : Option Recommendation).toList ++ parseRecLoop [sberP, gazpP] []
        (some ⟨sberP.Ticker, sberP.Name,
          extractAction (trimChars "SBER: Sberbank - BUY".toList),
          trimChars "GAZP: Gazprom - HOLD".toList⟩) :=
  (C7_rationale_consumption [sberP, gazpP] "SBER: Sberbank - BUY".toList
      "GAZP: Gazprom - HOLD".toList [] none sberP (by decide) (by decide)).1
    (by decide) (by decide)

/-- A well-formed sequence of entries parses to exactly its rendered
recommendations, in order. -/
theorem parseRecLoop_wellformed (ps : List Position) (entries : List RecEntry)
    (h : ∀ e ∈ entries, entryOK ps e) :
    parseRecLoop ps (entries.flatMap entryLines) none = entries.map toRec := by
  induction entries with
  | nil => simp [parseRecLoop]
  | cons e tail ih =>
    obtain ⟨h1, h2, h3, h4, h5, h6, h7⟩ := h e (List.mem_cons_self e tail)
    have hrest := ih (fun x hx => h x (List.mem_cons_of_mem e hx))
    have hact : extractAction (tickerLine e) = e.action :=
      extractAction_tickerLine _ _ _ h4 h5 h3
    have hc : trimChars e.expl ≠ [] ∧ e.pos.Ticker.isPrefixOf (trimChars e.expl) = false :=
      ⟨h6, h7⟩
    simp only [List.flatMap_cons, entryLines, List.cons_append, List.nil_append]
    simp only [parseRecLoop]
    rw [h1, if_neg (tickerLine_ne_nil e), h2]
    dsimp only
    rw [if_pos hc, hact, parseRecLoop_some, hrest]
    simp [toRec]

/-- Counterexample for C1 as stated: a well-formed block in which both known
tickers start a line carrying a recognized action token, but with the two
ticker lines adjacent; the parser returns one recommendation, not two. -/
theorem C1_counterexample :
    (parseAnalysisResponse
        "RECOMMENDATIONS:\nSBER: Sberbank - BUY\nGAZP: Gazprom - SELL".toList
        pfSG).Recommendations =
      [⟨"SBER".toList, "Sberbank".toList, "BUY".toList,
        "GAZP: Gazprom - SELL".toList⟩] := by
  decide

/-- C1 (amended: each ticker line must be followed by a non-blank rationale
line that does not itself start with that entry's ticker): for every
emphasis-free advisory text that splits at the recommendations marker into a
prefix and a block consisting of the rendered entries, the parser returns
exactly one recommendation per entry, in text order, carrying the matching
position's ticker and name and the action token of the entry's line. -/
theorem C1_wellformed_block (text pre recsText : Str) (pf : Portfolio)
    (entries : List RecEntry)
    (hclean : cleanText text = text)
    (hsplit : goSplit markerEN text = [pre, recsText])
    (hlines : goSplit nl recsText = entries.flatMap entryLines)
    (hne : entries ≠ [])
    (hok : ∀ e ∈ entries, entryOK pf.Positions e) :
    (parseAnalysisResponse text pf).Recommendations = entries.map toRec := by
  have hrecs := parseRecLoop_wellformed pf.Positions entries hok
  have hmapne : (entries.map toRec).isEmpty = false := by
    cases entries with
    | nil => exact absurd rfl hne
    | cons a t => simp
  simp only [parseAnalysisResponse]
  rw [hclean, hsplit]
  simp only [List.length_cons, List.length_nil, Nat.reduceAdd, Nat.lt_irrefl,
    if_false, List.drop_succ_cons, List.drop_zero, List.headD_cons]
  rw [hlines, hrecs]
  simp [hmapne]

/-- Witness for C1 at a concrete two-entry block. -/
theorem C1_witness :
    (parseAnalysisResponse c1Text pfSG).Recommendations = c1Entries.map toRec :=
  C1_wellformed_block c1Text c1Pre c1Recs pfSG c1Entries
    (by decide) (by decide) (by decide) (by decide) (by decide)

/-- Counterexample for C8 as stated: an opportunities line whose right part
contains neither LONG nor SHORT; the resulting action is the verbatim right
part, not the empty string. -/
theorem C8_counterexample :
    (parseAnalysisResponse
        "OPPORTUNITIES:\nYNDX: Yandex - maybe attractive".toList pfW).Opportunities =
      [⟨"YNDX".toList, "Yandex".toList, "maybe attractive".toList, []⟩] ∧
    "maybe attractive".toList ≠ ([] : Str) ∧
    "maybe attractive".toList ≠ "LONG".toList ∧
    "maybe attractive".toList ≠ "SHORT".toList := by
  exact ⟨by decide, by decide, by decide, by decide⟩

/-- C8 (amended): every non-blank opportunities line containing a hyphen is
split at the first hyphen into a left part — ticker, optionally followed by a
colon and name — and a right part; the opportunity's action is the trimmed
right part taken verbatim, with no LONG/SHORT token matching. -/
theorem C8_opp_action_verbatim (l : Str) (rest : List Str)
    (hl : trimChars l ≠ []) (hy : (trimChars l).contains '-' = true) :
    ∃ reason t, parseOppLoop (l :: rest) =
      ⟨trimChars (takeBeforeFirstChar ':' (trimChars (takeBeforeFirstChar '-' (trimChars l)))),
       (if (trimChars (takeBeforeFirstChar '-' (trimChars l))).contains ':' then
          trimChars (afterFirstChar ':' (trimChars (takeBeforeFirstChar '-' (trimChars l))))
        else []),
       trimChars (afterFirstChar '-' (trimChars l)), reason⟩ :: t := by
  have hc : trimChars l ≠ [] ∧ (trimChars l).contains '-' = true := ⟨hl, hy⟩
  cases rest with
  | nil =>
    refine ⟨[], [], ?_⟩
    simp only [parseOppLoop]
    rw [if_pos hc]
  | cons n rest2 =>
    by_cases he : expMarker.isPrefixOf (trimChars n) = true
    · refine ⟨trimChars ((trimChars n).drop expMarker.length), parseOppLoop rest2, ?_⟩
      simp only [parseOppLoop]
      rw [if_pos hc, if_pos he]
    · refine ⟨[], parseOppLoop (n :: rest2), ?_⟩
      simp only [parseOppLoop]
      rw [if_pos hc, if_neg he]

/-- Witness for C8 at a concrete line with arbitrary right-part text. -/
theorem C8_witness :
    ∃ reason t, parseOppLoop ["YNDX: Yandex - maybe attractive".toList] =
      ⟨trimChars (takeBeforeFirstChar ':'
          (trimChars (takeBeforeFirstChar '-' (trimChars "YNDX: Yandex - maybe attractive".toList)))),
       (if (trimChars (takeBeforeFirstChar '-' (trimChars "YNDX: Yandex - maybe attractive".toList))).contains ':' then
          trimChars (afterFirstChar ':'
            (trimChars (takeBeforeFirstChar '-' (trimChars "YNDX: Yandex - maybe attractive".toList))))
        else []),
       trimChars (afterFirstChar '-' (trimChars "YNDX: Yandex - maybe attractive".toList)),
       reason⟩ :: t :=
  C8_opp_action_verbatim "YNDX: Yandex - maybe attractive".toList []
    (by decide) (by decide)

end InvestManager
